import Mathlib

/-!
Verification of the PDF-translation pipeline in `app.py`.

Shallow embedding conventions:
* Python strings are `List Char` (`Texto`); Python floats (font sizes and
  page coordinates) are `ℚ`; Python's `\s` and `str.strip()` whitespace is
  modelled by the ASCII whitespace characters; the regex class `\d` is
  modelled by the ASCII digits.
* The translation service (`GoogleTranslator.translate`) is an explicit
  collaborator: a function `Texto → Option Texto` where `none` models the
  call raising an exception (and `Texto → Except ε Texto` where exception
  propagation itself is the subject of study).
* The ReportLab story is modelled by `StoryElem` values; the possibility
  that `Paragraph(...)` raises is modelled by a caller-chosen predicate
  `falla` on the markup and style it receives.
-/

abbrev Texto := List Char

/-- Whitespace as matched by Python's `\s` and stripped by `str.strip()`
(ASCII fragment). -/
def isSpaceChar (c : Char) : Bool :=
  c = ' ' || c = '\t' || c = '\n' || c = '\r' || c = '\x0b' || c = '\x0c'

/-- `str.strip()`: drop leading and trailing whitespace. -/
def strip (t : Texto) : Texto :=
  ((t.dropWhile isSpaceChar).reverse.dropWhile isSpaceChar).reverse

/-- Sentence-final punctuation of the split regex `(?<=[.!?])\s+`. -/
def esPunct (c : Char) : Bool :=
  c = '.' || c = '!' || c = '?'

/-- Does the accumulated (reversed) sentence end in `.`, `!` or `?` —
the lookbehind of the split regex. -/
def finEsPunct (cur : Texto) : Bool :=
  match cur with
  | c :: _ => esPunct c
  | [] => false

theorem length_dropWhile_le (p : Char → Bool) (l : Texto) :
    (l.dropWhile p).length ≤ l.length := by
  induction l with
  | nil => simp [List.dropWhile]
  | cons c cs ih =>
    by_cases h : p c <;> simp [List.dropWhile, h] <;> omega

/-- Scanner for `re.split(r'(?<=[.!?])\s+', texto)`: with `skip = false`,
`cur` holds the current sentence reversed and a whitespace character
preceded by `.!?` ends it; with `skip = true` the scanner is consuming
the rest of the maximal whitespace run that forms the delimiter. -/
def splitGo : Bool → Texto → Texto → List Texto
  | false, cur, [] => [cur.reverse]
  | false, cur, c :: cs =>
    if isSpaceChar c && finEsPunct cur then
      cur.reverse :: splitGo true [] cs
    else
      splitGo false (c :: cur) cs
  | true, _, [] => [[]]
  | true, _, c :: cs =>
    if isSpaceChar c then splitGo true [] cs
    else splitGo false [c] cs

/-- `re.split(r'(?<=[.!?])\s+', texto)` (app.py line 165). -/
def splitSentences (t : Texto) : List Texto :=
  splitGo false [] t

/-- The chunk buffers, in order, that the long-text loop of
`traducir_texto_inteligente` flushes to the translator (each one is
`buffer` at its flush point, before `.strip()`): app.py lines 167-187. -/
def buffersAux (oraciones : List Texto) (buffer : Texto) (maxC : ℕ) : List Texto :=
  match oraciones with
  | [] => if buffer.isEmpty then [] else [buffer]
  | o :: rest =>
    if buffer.length + o.length < maxC then
      buffersAux rest (buffer ++ o ++ [' ']) maxC
    else if buffer.isEmpty then
      buffersAux rest (o ++ [' ']) maxC
    else
      buffer :: buffersAux rest (o ++ [' ']) maxC

/-- One flushed chunk: `translator.translate(buffer.strip())` with the
`except` branch substituting the unstripped `buffer` (app.py lines
174-179 and 183-187). -/
def pieza (trans : Texto → Option Texto) (buffer : Texto) : Texto :=
  (trans (strip buffer)).getD buffer

/-- The `texto_traducido` list built by the long-text loop (app.py lines
167-187). -/
def piezasAux (trans : Texto → Option Texto) (oraciones : List Texto)
    (buffer : Texto) (maxC : ℕ) : List Texto :=
  match oraciones with
  | [] => if buffer.isEmpty then [] else [pieza trans buffer]
  | o :: rest =>
    if buffer.length + o.length < maxC then
      piezasAux trans rest (buffer ++ o ++ [' ']) maxC
    else if buffer.isEmpty then
      piezasAux trans rest (o ++ [' ']) maxC
    else
      pieza trans buffer :: piezasAux trans rest (o ++ [' ']) maxC

/-- `traducir_texto_inteligente(texto, max_caracteres=4500)` (app.py lines
147-189), with the translation service passed in explicitly. -/
def traducir_texto_inteligente (trans : Texto → Option Texto) (texto : Texto)
    (maxC : ℕ) : Texto :=
  if (strip texto).isEmpty then []
  else if texto.length ≤ maxC then (trans texto).getD texto
  else List.intercalate [' '] (piezasAux trans (splitSentences texto) [] maxC)

/-- The inputs passed to `translator.translate`, in call order, by
`traducir_texto_inteligente` on the given text. -/
def llamadas (texto : Texto) (maxC : ℕ) : List Texto :=
  if (strip texto).isEmpty then []
  else if texto.length ≤ maxC then [texto]
  else (buffersAux (splitSentences texto) [] maxC).map strip

/-- The block kinds assigned by `TextBlock.clasificar_tipo`. -/
inductive Tipo where
  | titulo
  | subtitulo
  | lista
  | parrafo
deriving DecidableEq, Repr

/-- Characters of the regex class `[\d\.\-\•\◦]` (`\d` modelled as the
ASCII digits). -/
def isListaChar (c : Char) : Bool :=
  c.isDigit || c = '.' || c = '-' || c = '•' || c = '◦'

/-- `re.match(r'^[\d\.\-\•\◦]+\s+', text)` as a Boolean. Since the class
and `\s` are disjoint, the greedy match succeeds exactly when the maximal
leading run of class characters is non-empty and is followed by a
whitespace character. -/
def matchLista (t : Texto) : Bool :=
  !(t.takeWhile isListaChar).isEmpty &&
    (match t.dropWhile isListaChar with
     | c :: _ => isSpaceChar c
     | [] => false)

/-- `re.match(r'^[A-Z][\.\)]\s+', text)` as a Boolean. -/
def matchEnum (t : Texto) : Bool :=
  match t with
  | c0 :: c1 :: c2 :: _ =>
    ('A' ≤ c0 && c0 ≤ 'Z') && (c1 = '.' || c1 = ')') && isSpaceChar c2
  | _ => false

/-- `TextBlock.clasificar_tipo` (app.py lines 36-54). `text` is the
block's stored text, which the constructor has already stripped. The
first branch falls through when the length test fails, exactly as the
nested `if` in the source does. -/
def clasificar_tipo (text : Texto) (font_size : ℚ) (is_bold : Bool) : Tipo :=
  if ((12 : ℚ) < font_size ∨ is_bold = true) ∧ text.length < 100 then Tipo.titulo
  else if matchLista text = true ∨ matchEnum text = true then Tipo.lista
  else if text.length < 80 ∧ (10 : ℚ) < font_size then Tipo.subtitulo
  else Tipo.parrafo

/-- A `TextBlock` (app.py lines 25-34): one extracted span with its
typography and position. `text` is stored stripped. -/
structure Bloque where
  text : Texto
  font_size : ℚ
  is_bold : Bool
  x : ℚ
  y : ℚ
  page_num : ℕ
deriving DecidableEq

/-- `self.tipo = self.clasificar_tipo()`: the kind of a block, a pure
function of its (stripped) text, font size and boldness. -/
def Bloque.tipo (b : Bloque) : Tipo :=
  clasificar_tipo b.text b.font_size b.is_bold

/-- The `TextBlock` constructor: `self.text = text.strip()`. -/
def mkBloque (text : Texto) (font_size : ℚ) (is_bold : Bool) (x y : ℚ)
    (page_num : ℕ) : Bloque :=
  { text := strip text, font_size := font_size, is_bold := is_bold,
    x := x, y := y, page_num := page_num }

/-- A paragraph-level unit as built by `agrupar_bloques_en_parrafos`
(the dicts with keys `texto`, `tipo`, `font_size`). -/
structure Parrafo where
  texto : Texto
  tipo : Tipo
  font_size : ℚ
deriving DecidableEq

/-- Python's builtin `abs` on our rational model of floats. -/
def ratAbs (q : ℚ) : ℚ :=
  if q < 0 then -q else q

/-- `bloque.tipo in ['titulo', 'subtitulo']`. -/
def esEncabezado (t : Tipo) : Bool :=
  t = Tipo.titulo || t = Tipo.subtitulo

/-- One flushed buffer as a `Parrafo` (app.py lines 107-111, 126-130,
139-143): space-joined texts, `ultimo_tipo or 'parrafo'`, and
`buffer[0].font_size if buffer else 10`. -/
def flushParrafo (buffer : List Bloque) (ultimo_tipo : Option Tipo) : Parrafo :=
  { texto := List.intercalate [' '] (buffer.map Bloque.text)
  , tipo := ultimo_tipo.getD Tipo.parrafo
  , font_size := (buffer.head?.map Bloque.font_size).getD 10 }

/-- The loop of `agrupar_bloques_en_parrafos` (app.py lines 103-143),
with carried state `buffer`, `ultimo_y`, `ultimo_tipo`. The trailing
`buffer.append(bloque)` of the gap branch appears here as restarting the
buffer at `[b]`. -/
def agruparAux (bloques : List Bloque) (buffer : List Bloque)
    (ultimo_y : Option ℚ) (ultimo_tipo : Option Tipo) : List Parrafo :=
  match bloques with
  | [] => if buffer.isEmpty then [] else [flushParrafo buffer ultimo_tipo]
  | b :: rest =>
    if esEncabezado b.tipo then
      (if buffer.isEmpty then [] else [flushParrafo buffer ultimo_tipo]) ++
        ({ texto := b.text, tipo := b.tipo, font_size := b.font_size } ::
          agruparAux rest [] (some b.y) (some b.tipo))
    else
      match ultimo_y with
      | some uy =>
        if ratAbs (b.y - uy) > 15 then
          (if buffer.isEmpty then [] else [flushParrafo buffer ultimo_tipo]) ++
            agruparAux rest [b] (some b.y) (some b.tipo)
        else
          agruparAux rest (buffer ++ [b]) (some b.y) (some b.tipo)
      | none => agruparAux rest (buffer ++ [b]) (some b.y) (some b.tipo)

/-- `agrupar_bloques_en_parrafos(bloques)` (app.py lines 91-145). -/
def agrupar_bloques_en_parrafos (bloques : List Bloque) : List Parrafo :=
  if bloques.isEmpty then [] else agruparAux bloques [] none none

/-- The consecutive groups of input blocks that `agruparAux` merges into
one `Parrafo` each (same control flow as `agruparAux`, recording the
contributing blocks instead of building the dict). -/
def agruparGruposAux (bloques : List Bloque) (buffer : List Bloque)
    (ultimo_y : Option ℚ) : List (List Bloque) :=
  match bloques with
  | [] => if buffer.isEmpty then [] else [buffer]
  | b :: rest =>
    if esEncabezado b.tipo then
      (if buffer.isEmpty then [] else [buffer]) ++
        ([b] :: agruparGruposAux rest [] (some b.y))
    else
      match ultimo_y with
      | some uy =>
        if ratAbs (b.y - uy) > 15 then
          (if buffer.isEmpty then [] else [buffer]) ++
            agruparGruposAux rest [b] (some b.y)
        else
          agruparGruposAux rest (buffer ++ [b]) (some b.y)
      | none => agruparGruposAux rest (buffer ++ [b]) (some b.y)

/-- Modelled from the spec (§3, ParagraphUnit invariant): the unit a
group of merged spans should produce — space-joined concatenation of
their texts in order, the kind of the last contributing span, the font
size of the first. Compared against the units the code builds. -/
def parrafoDeGrupo (g : List Bloque) : Parrafo :=
  { texto := List.intercalate [' '] (g.map Bloque.text)
  , tipo := (g.getLast?.map Bloque.tipo).getD Tipo.parrafo
  , font_size := (g.head?.map Bloque.font_size).getD 10 }

/-- Does `pat` start the string `s`? -/
def esPrefijo : Texto → Texto → Bool
  | [], _ => true
  | _ :: _, [] => false
  | c :: cs, d :: ds => c == d && esPrefijo cs ds

/-- `archivo_subido.name.replace(old, new)`: Python `str.replace`,
replacing every non-overlapping occurrence left to right. -/
def pyReplace (s : Texto) (pat : Texto) (rep : Texto) : Texto :=
  match s with
  | [] => []
  | c :: cs =>
    if h : !pat.isEmpty && esPrefijo pat (c :: cs) then
      rep ++ pyReplace ((c :: cs).drop pat.length) pat rep
    else
      c :: pyReplace cs pat rep
termination_by s.length
decreasing_by
  · simp only [Bool.and_eq_true, Bool.not_eq_true', List.isEmpty_eq_false] at h
    simp only [List.length_drop, List.length_cons]
    have := List.length_pos.mpr h.1
    omega
  · simp

/-- The translated-output suffix of app.py line 409. -/
def sufijoTraducido : Texto :=
  "_TRADUCIDO_PROFESIONAL.pdf".data

/-- `nombre_archivo_salida = archivo_subido.name.replace('.pdf',
'_TRADUCIDO_PROFESIONAL.pdf')` (app.py line 409). -/
def nombre_archivo_salida (nombre : Texto) : Texto :=
  pyReplace nombre (".pdf".data) sufijoTraducido

/-- The four custom paragraph styles of `crear_estilos_personalizados`
(app.py lines 191-246). -/
inductive Estilo where
  | tituloPrincipal
  | subtitulo
  | itemLista
  | parrafoNormal
deriving DecidableEq, Repr

/-- An element appended to the ReportLab `story` by
`crear_pdf_profesional`. -/
inductive StoryElem where
  | paragraph (markup : Texto) (estilo : Estilo)
  | spacer
  | pageBreak
deriving DecidableEq, Repr

/-- `texto.replace('&','&amp;').replace('<','&lt;').replace('>','&gt;')`
(app.py line 273). -/
def limpiarTexto (t : Texto) : Texto :=
  pyReplace (pyReplace (pyReplace t ("&".data) ("&amp;".data))
      ("<".data) ("&lt;".data))
    (">".data) ("&gt;".data)

/-- The markup string and style `crear_pdf_profesional` hands to
`Paragraph` for a given cleaned text and kind (app.py lines 276-284). -/
def marcadoYEstilo (limpio : Texto) (t : Tipo) : Texto × Estilo :=
  match t with
  | Tipo.titulo => ("<b>".data ++ limpio ++ "</b>".data, Estilo.tituloPrincipal)
  | Tipo.subtitulo => ("<b>".data ++ limpio ++ "</b>".data, Estilo.subtitulo)
  | Tipo.lista => ("• ".data ++ limpio, Estilo.itemLista)
  | Tipo.parrafo => (limpio, Estilo.parrafoNormal)

/-- The story elements one paragraph dict contributes (app.py lines
265-290): empty-after-strip texts are skipped, a failing `Paragraph`
construction (modelled by the predicate `falla`) is replaced by a
spacer. -/
def elementosUnidad (falla : Texto → Estilo → Bool) (p : Parrafo) :
    List StoryElem :=
  if (strip p.texto).isEmpty then []
  else
    let me := marcadoYEstilo (limpiarTexto p.texto) p.tipo
    if falla me.1 me.2 then [StoryElem.spacer]
    else [StoryElem.paragraph me.1 me.2]

/-- The story elements contributed by page `i` of `n` (app.py lines
264-294): its paragraphs' elements, then a page break unless it is the
last page. -/
def elementosPagina (falla : Texto → Estilo → Bool) (n i : ℕ)
    (pagina : List Parrafo) : List StoryElem :=
  pagina.flatMap (elementosUnidad falla) ++
    (if i < n - 1 then [StoryElem.pageBreak] else [])

/-- The full `story` built by `crear_pdf_profesional` (app.py lines
262-294). -/
def crearStory (falla : Texto → Estilo → Bool)
    (paginas : List (List Parrafo)) : List StoryElem :=
  paginas.enum.flatMap (fun pr => elementosPagina falla paginas.length pr.1 pr.2)

/-- The per-page translation step of the main loop (app.py lines
367-378): each paragraph's text is translated, `tipo` and `font_size`
are copied unchanged. -/
def traducirParrafos (trans : Texto → Option Texto) (maxC : ℕ)
    (ps : List Parrafo) : List Parrafo :=
  ps.map (fun p =>
    { texto := traducir_texto_inteligente trans p.texto maxC
    , tipo := p.tipo
    , font_size := p.font_size })

/-- One flushed chunk in the exception model: the `try`/`except` of
app.py lines 174-179 and 183-187 around a service that may raise. -/
def piezaE {ε : Type} (trans : Texto → Except ε Texto) (buffer : Texto) :
    Except ε Texto :=
  match trans (strip buffer) with
  | Except.ok t => Except.ok t
  | Except.error _ => Except.ok buffer

/-- The long-text loop in the exception model: any uncaught exception
would propagate through the `Except` plumbing. -/
def piezasAuxE {ε : Type} (trans : Texto → Except ε Texto)
    (oraciones : List Texto) (buffer : Texto) (maxC : ℕ) :
    Except ε (List Texto) :=
  match oraciones with
  | [] =>
    if buffer.isEmpty then Except.ok []
    else
      match piezaE trans buffer with
      | Except.ok p => Except.ok [p]
      | Except.error e => Except.error e
  | o :: rest =>
    if buffer.length + o.length < maxC then
      piezasAuxE trans rest (buffer ++ o ++ [' ']) maxC
    else if buffer.isEmpty then
      piezasAuxE trans rest (o ++ [' ']) maxC
    else
      match piezaE trans buffer with
      | Except.ok p =>
        match piezasAuxE trans rest (o ++ [' ']) maxC with
        | Except.ok ps => Except.ok (p :: ps)
        | Except.error e => Except.error e
      | Except.error e => Except.error e

/-- `traducir_texto_inteligente` in the exception model: the service may
raise (`Except.error`); the two `try`/`except` sites of the source are
the only handlers. -/
def traducirE {ε : Type} (trans : Texto → Except ε Texto) (texto : Texto)
    (maxC : ℕ) : Except ε Texto :=
  if (strip texto).isEmpty then Except.ok []
  else if texto.length ≤ maxC then
    match trans texto with
    | Except.ok t => Except.ok t
    | Except.error _ => Except.ok texto
  else
    match piezasAuxE trans (splitSentences texto) [] maxC with
    | Except.ok ps => Except.ok (List.intercalate [' '] ps)
    | Except.error e => Except.error e

/-- The buffer a group of packed sentences corresponds to: each sentence
followed by the space the loop appends. -/
def bufferDeGrupo (g : List Texto) : Texto :=
  g.flatMap (fun s => s ++ [' '])

/-- The sentence groups that the chunking loop packs into one buffer
each (same control flow as `buffersAux`, recording the contributing
sentences). -/
def chunkGruposAux (oraciones : List Texto) (g : List Texto) (maxC : ℕ) :
    List (List Texto) :=
  match oraciones with
  | [] => if g.isEmpty then [] else [g]
  | o :: rest =>
    if (bufferDeGrupo g).length + o.length < maxC then
      chunkGruposAux rest (g ++ [o]) maxC
    else if g.isEmpty then
      chunkGruposAux rest [o] maxC
    else
      g :: chunkGruposAux rest [o] maxC

theorem strip_length_le (l : Texto) : (strip l).length ≤ l.length := by
  unfold strip
  calc ((l.dropWhile isSpaceChar).reverse.dropWhile isSpaceChar).reverse.length
      = ((l.dropWhile isSpaceChar).reverse.dropWhile isSpaceChar).length := by
        simp
    _ ≤ (l.dropWhile isSpaceChar).reverse.length := length_dropWhile_le _ _
    _ = (l.dropWhile isSpaceChar).length := by simp
    _ ≤ l.length := length_dropWhile_le _ _

theorem dropWhile_eq_self_of_all (p : Char → Bool) (l : Texto)
    (h : ∀ c ∈ l, p c = false) : l.dropWhile p = l := by
  cases l with
  | nil => rfl
  | cons c cs => simp [List.dropWhile, h c (by simp)]

theorem strip_eq_self_of_all (l : Texto)
    (h : ∀ c ∈ l, isSpaceChar c = false) : strip l = l := by
  unfold strip
  rw [dropWhile_eq_self_of_all _ _ h,
    dropWhile_eq_self_of_all _ _ (fun c hc => h c (List.mem_reverse.mp hc)),
    List.reverse_reverse]

theorem splitGo_all_nonspace (l : Texto)
    (h : ∀ c ∈ l, isSpaceChar c = false) :
    ∀ cur : Texto, splitGo false cur l = [cur.reverse ++ l] := by
  induction l with
  | nil => intro cur; simp [splitGo]
  | cons c cs ih =>
    intro cur
    rw [splitGo, h c (by simp)]
    simp only [Bool.false_and]
    rw [if_neg (by simp)]
    rw [ih (fun d hd => h d (by simp [hd]))]
    simp

theorem splitSentences_all_nonspace (l : Texto)
    (h : ∀ c ∈ l, isSpaceChar c = false) : splitSentences l = [l] := by
  rw [splitSentences, splitGo_all_nonspace l h []]
  simp

theorem piezasAux_eq_map (trans : Texto → Option Texto)
    (oraciones : List Texto) (maxC : ℕ) :
    ∀ buffer : Texto,
      piezasAux trans oraciones buffer maxC =
        (buffersAux oraciones buffer maxC).map (pieza trans) := by
  induction oraciones with
  | nil =>
    intro buffer
    rw [piezasAux, buffersAux]
    by_cases h : buffer.isEmpty <;> simp [h]
  | cons o rest ih =>
    intro buffer
    rw [piezasAux, buffersAux]
    by_cases h1 : buffer.length + o.length < maxC
    · simp only [if_pos h1]; exact ih _
    · by_cases h2 : buffer.isEmpty
      · simp only [if_neg h1, if_pos h2]; exact ih _
      · simp only [if_neg h1, if_neg h2, List.map_cons]
        rw [ih _]

theorem bufferDeGrupo_isEmpty (g : List Texto) :
    (bufferDeGrupo g).isEmpty = g.isEmpty := by
  cases g with
  | nil => rfl
  | cons o rest =>
    simp only [bufferDeGrupo, List.flatMap_cons, List.isEmpty_cons]
    rw [List.append_assoc]
    cases o with
    | nil => rfl
    | cons c cs => rfl

theorem bufferDeGrupo_snoc (g : List Texto) (o : Texto) :
    bufferDeGrupo (g ++ [o]) = bufferDeGrupo g ++ (o ++ [' ']) := by
  simp [bufferDeGrupo]

theorem buffersAux_eq_grupos (oraciones : List Texto) (maxC : ℕ) :
    ∀ g : List Texto,
      buffersAux oraciones (bufferDeGrupo g) maxC =
        (chunkGruposAux oraciones g maxC).map bufferDeGrupo := by
  induction oraciones with
  | nil =>
    intro g
    rw [buffersAux, chunkGruposAux, bufferDeGrupo_isEmpty]
    by_cases h : g.isEmpty <;> simp [h]
  | cons o rest ih =>
    intro g
    rw [buffersAux, chunkGruposAux]
    by_cases h1 : (bufferDeGrupo g).length + o.length < maxC
    · simp only [if_pos h1]
      have : bufferDeGrupo g ++ o ++ [' '] = bufferDeGrupo (g ++ [o]) := by
        rw [bufferDeGrupo_snoc, List.append_assoc]
      rw [this, ih]
    · simp only [if_neg h1, bufferDeGrupo_isEmpty]
      by_cases h2 : g.isEmpty
      · simp only [if_pos h2]
        have : (o ++ [' ']) = bufferDeGrupo [o] := by simp [bufferDeGrupo]
        rw [this, ih]
      · simp only [if_neg h2, List.map_cons]
        have : (o ++ [' ']) = bufferDeGrupo [o] := by simp [bufferDeGrupo]
        rw [this, ih]

theorem chunkGruposAux_flatten (oraciones : List Texto) (maxC : ℕ) :
    ∀ g : List Texto,
      (chunkGruposAux oraciones g maxC).flatten = g ++ oraciones := by
  induction oraciones with
  | nil =>
    intro g
    rw [chunkGruposAux]
    by_cases h : g.isEmpty
    · simp [List.isEmpty_iff.mp h]
    · rw [if_neg (by simp [h])]
      simp
  | cons o rest ih =>
    intro g
    rw [chunkGruposAux]
    by_cases h1 : (bufferDeGrupo g).length + o.length < maxC
    · simp only [if_pos h1]; rw [ih]; simp
    · simp only [if_neg h1]
      by_cases h2 : g.isEmpty
      · simp only [if_pos h2]
        rw [List.isEmpty_iff.mp h2]
        rw [ih]
        simp
      · simp only [if_neg h2, List.flatten_cons]
        rw [ih]
        simp

theorem chunkGruposAux_ne_nil (oraciones : List Texto) (maxC : ℕ) :
    ∀ g : List Texto, ∀ h ∈ chunkGruposAux oraciones g maxC, h ≠ [] := by
  induction oraciones with
  | nil =>
    intro g h hm
    rw [chunkGruposAux] at hm
    by_cases hg : g.isEmpty
    · simp [hg] at hm
    · simp only [if_neg hg, List.mem_singleton] at hm
      subst hm
      exact List.isEmpty_eq_false.mp (Bool.not_eq_true _ ▸ by simpa using hg)
  | cons o rest ih =>
    intro g h hm
    rw [chunkGruposAux] at hm
    by_cases h1 : (bufferDeGrupo g).length + o.length < maxC
    · rw [if_pos h1] at hm; exact ih _ h hm
    · rw [if_neg h1] at hm
      by_cases h2 : g.isEmpty
      · rw [if_pos h2] at hm; exact ih _ h hm
      · rw [if_neg h2] at hm
        rcases List.mem_cons.mp hm with rfl | hm
        · exact List.isEmpty_eq_false.mp (by simpa using h2)
        · exact ih _ h hm

theorem chunkGruposAux_bound (oraciones : List Texto) (maxC : ℕ) :
    ∀ g : List Texto,
      (2 ≤ g.length → (bufferDeGrupo g).length ≤ maxC) →
      ∀ h ∈ chunkGruposAux oraciones g maxC,
        2 ≤ h.length → (bufferDeGrupo h).length ≤ maxC := by
  induction oraciones with
  | nil =>
    intro g hg h hm
    rw [chunkGruposAux] at hm
    by_cases he : g.isEmpty
    · simp [he] at hm
    · rw [if_neg he] at hm
      rw [List.mem_singleton] at hm
      subst hm
      exact hg
  | cons o rest ih =>
    intro g hg h hm
    rw [chunkGruposAux] at hm
    by_cases h1 : (bufferDeGrupo g).length + o.length < maxC
    · rw [if_pos h1] at hm
      refine ih (g ++ [o]) ?_ h hm
      intro _
      rw [bufferDeGrupo_snoc]
      simp only [List.length_append, List.length_cons, List.length_nil]
      omega
    · rw [if_neg h1] at hm
      by_cases h2 : g.isEmpty
      · rw [if_pos h2] at hm
        refine ih [o] ?_ h hm
        intro habs
        simp at habs
      · rw [if_neg h2] at hm
        rcases List.mem_cons.mp hm with rfl | hm
        · exact hg
        · refine ih [o] ?_ h hm
          intro habs
          simp at habs

theorem dropWhile_cons_false (p : Char → Bool) (c : Char) (l : Texto)
    (h : p c = false) : (c :: l).dropWhile p = c :: l := by
  simp [List.dropWhile_cons, h]

theorem dropWhile_cons_true (p : Char → Bool) (c : Char) (l : Texto)
    (h : p c = true) : (c :: l).dropWhile p = l.dropWhile p := by
  simp [List.dropWhile_cons, h]

theorem strip_snoc_space (l : Texto) (h : ∀ c ∈ l, isSpaceChar c = false) :
    strip (l ++ [' ']) = l := by
  cases l with
  | nil => decide
  | cons c cs =>
    unfold strip
    rw [List.cons_append, dropWhile_cons_false _ _ _ (h c (by simp))]
    have h2 : (c :: (cs ++ [' '])).reverse = ' ' :: (c :: cs).reverse := by
      rw [← List.cons_append]
      simp
    rw [h2, dropWhile_cons_true _ _ _ (by decide),
      dropWhile_eq_self_of_all _ _ (fun d hd => h d (List.mem_reverse.mp hd)),
      List.reverse_reverse]

/-- The long, sentence-boundary-free text used to refute the chunk-size
bound of C1. -/
def textoLargo : Texto := List.replicate 4501 'a'

theorem textoLargo_nonspace : ∀ c ∈ textoLargo, isSpaceChar c = false := by
  intro c hc
  unfold textoLargo at hc
  rw [List.eq_of_mem_replicate hc]
  decide

/-- C1 is false as stated: a text of 4501 letters with no sentence
boundary exceeds `max_caracteres = 4500`, yet the single chunk passed to
the translation service is the whole 4501-character text, which is longer
than `max_caracteres`. -/
theorem traducir_chunk_excede_limite :
    4500 < textoLargo.length ∧
    llamadas textoLargo 4500 = [textoLargo] ∧
    ¬ (∀ ch ∈ llamadas textoLargo 4500, ch.length ≤ 4500) := by
  have hlen : textoLargo.length = 4501 := by
    unfold textoLargo
    rw [List.length_replicate]
  have hstrip : strip textoLargo = textoLargo :=
    strip_eq_self_of_all _ textoLargo_nonspace
  have hne0 : textoLargo.isEmpty = false := rfl
  have he : ([] : Texto).isEmpty = true := rfl
  have hne1 : (textoLargo ++ [' ']).isEmpty = false := by
    cases hx : textoLargo with
    | nil => rw [hx] at hlen; simp at hlen
    | cons c cs => simp
  have hval : llamadas textoLargo 4500 = [textoLargo] := by
    rw [llamadas, if_neg (by rw [hstrip, hne0]; simp),
      if_neg (by omega),
      splitSentences_all_nonspace _ textoLargo_nonspace]
    rw [buffersAux, if_neg (by rw [List.length_nil, hlen]; omega), if_pos he]
    rw [buffersAux, if_neg (by rw [hne1]; simp)]
    rw [List.map_singleton, strip_snoc_space _ textoLargo_nonspace]
  refine ⟨by omega, hval, fun habs => ?_⟩
  have := habs textoLargo (by rw [hval]; simp)
  omega

/-- C1 (amended): for a non-whitespace text longer than `max_caracteres`,
the loop splits it at the sentence boundaries of `(?<=[.!?])\s+` and
greedily packs consecutive sentences into chunks; the chunks cover all
sentences in original order, the identity-translated output is their
space-joined reassembly, and every chunk holding two or more sentences
(that is, every chunk the greedy packing actually limited) has length at
most `max_caracteres`. A chunk that is a single overlong sentence may
exceed the limit (see the counterexample). -/
theorem traducir_chunks_orden_y_limite (texto : Texto) (maxC : ℕ)
    (hlen : maxC < texto.length) (hst : (strip texto).isEmpty = false) :
    ∃ grupos : List (List Texto),
      grupos.flatten = splitSentences texto ∧
      (∀ g ∈ grupos, g ≠ []) ∧
      llamadas texto maxC = grupos.map (fun g => strip (bufferDeGrupo g)) ∧
      traducir_texto_inteligente (fun s => some s) texto maxC =
        List.intercalate [' '] (grupos.map (fun g => strip (bufferDeGrupo g))) ∧
      ∀ g ∈ grupos, 2 ≤ g.length → (strip (bufferDeGrupo g)).length ≤ maxC := by
  have h0 : ([] : Texto) = bufferDeGrupo [] := rfl
  refine ⟨chunkGruposAux (splitSentences texto) [] maxC, ?_, ?_, ?_, ?_, ?_⟩
  · rw [chunkGruposAux_flatten]
    simp
  · exact chunkGruposAux_ne_nil _ _ _
  · rw [llamadas, if_neg (by rw [hst]; simp), if_neg (by omega), h0,
      buffersAux_eq_grupos, List.map_map]
    rfl
  · rw [traducir_texto_inteligente, if_neg (by rw [hst]; simp),
      if_neg (by omega), piezasAux_eq_map, h0, buffersAux_eq_grupos,
      List.map_map]
    rfl
  · intro g hg h2
    exact le_trans (strip_length_le _)
      (chunkGruposAux_bound _ _ [] (by intro hx; simp at hx) g hg h2)

/-- Witness for the amended C1 at the concrete text `Aa. Bb! Cc?` with
`max_caracteres = 5`. -/
theorem traducir_chunks_orden_y_limite_witness :
    ∃ grupos : List (List Texto),
      grupos.flatten = splitSentences ("Aa. Bb! Cc?".data) ∧
      (∀ g ∈ grupos, g ≠ []) ∧
      llamadas ("Aa. Bb! Cc?".data) 5 =
        grupos.map (fun g => strip (bufferDeGrupo g)) ∧
      traducir_texto_inteligente (fun s => some s) ("Aa. Bb! Cc?".data) 5 =
        List.intercalate [' '] (grupos.map (fun g => strip (bufferDeGrupo g))) ∧
      ∀ g ∈ grupos, 2 ≤ g.length → (strip (bufferDeGrupo g)).length ≤ 5 :=
  traducir_chunks_orden_y_limite ("Aa. Bb! Cc?".data) 5 (by decide) (by decide)

/-- C6: a failed translation call substitutes the chunk's original text
and is non-fatal. Conjunct 1: the long-path output is the space-joined
list of per-chunk results, each chunk contributing its translation when
the call succeeds and its own original buffer when the call fails.
Conjunct 2: the output depends on the service only through its answers on
the inputs actually passed to it. Conjunct 3: consequently, in a list of
paragraphs, the translated entry at a position is unchanged whenever the
service behaves the same on that paragraph's own calls, regardless of
failures elsewhere. -/
theorem traducir_fallo_no_fatal (trans trans2 : Texto → Option Texto)
    (maxC : ℕ) (texto : Texto) :
    (maxC < texto.length → (strip texto).isEmpty = false →
      traducir_texto_inteligente trans texto maxC =
        List.intercalate [' ']
          ((buffersAux (splitSentences texto) [] maxC).map (pieza trans))) ∧
    ((∀ s ∈ llamadas texto maxC, trans s = trans2 s) →
      traducir_texto_inteligente trans texto maxC =
        traducir_texto_inteligente trans2 texto maxC) ∧
    (∀ (ps : List Parrafo) (i : ℕ) (p : Parrafo), ps[i]? = some p →
      (∀ s ∈ llamadas p.texto maxC, trans s = trans2 s) →
      (traducirParrafos trans maxC ps)[i]? =
        (traducirParrafos trans2 maxC ps)[i]?) := by
  have hdep : ∀ (t : Texto), (∀ s ∈ llamadas t maxC, trans s = trans2 s) →
      traducir_texto_inteligente trans t maxC =
        traducir_texto_inteligente trans2 t maxC := by
    intro t hag
    by_cases h1 : (strip t).isEmpty = true
    · rw [traducir_texto_inteligente, traducir_texto_inteligente,
        if_pos h1, if_pos h1]
    · by_cases h2 : t.length ≤ maxC
      · rw [traducir_texto_inteligente, traducir_texto_inteligente,
          if_neg h1, if_neg h1, if_pos h2, if_pos h2]
        rw [hag t (by rw [llamadas, if_neg h1, if_pos h2]; simp)]
      · rw [traducir_texto_inteligente, traducir_texto_inteligente,
          if_neg h1, if_neg h1, if_neg h2, if_neg h2,
          piezasAux_eq_map, piezasAux_eq_map]
        congr 1
        refine List.map_congr_left ?_
        intro b hb
        rw [pieza, pieza, hag (strip b) ?_]
        rw [llamadas, if_neg h1, if_neg h2]
        exact List.mem_map_of_mem strip hb
  refine ⟨?_, hdep texto, ?_⟩
  · intro hlen hst
    rw [traducir_texto_inteligente, if_neg (by rw [hst]; simp),
      if_neg (by omega), piezasAux_eq_map]
  · intro ps i p hp hag
    rw [traducirParrafos, traducirParrafos, List.getElem?_map,
      List.getElem?_map, hp]
    simp only [Option.map_some']
    rw [hdep p.texto hag]

/-- Witness for C6: with `max_caracteres = 5` the text `Aa. Bb! Cc?` is
chunked into `Aa.`, `Bb!`, `Cc?`; a service that fails exactly on `Bb!`
and prepends `X` otherwise yields the translations of the first and
third chunks with the original buffer of the failed second chunk in
between. -/
theorem traducir_fallo_no_fatal_witness :
    traducir_texto_inteligente
        (fun s => if s = "Bb!".data then none else some ('X' :: s))
        ("Aa. Bb! Cc?".data) 5 =
      ("XAa. Bb!  XCc?".data) :=
  ((traducir_fallo_no_fatal
      (fun s => if s = "Bb!".data then none else some ('X' :: s))
      (fun s => if s = "Bb!".data then none else some ('X' :: s))
      5 ("Aa. Bb! Cc?".data)).1 (by decide) (by decide)).trans (by decide)

/-- C7 is false as stated: the all-whitespace text of length 3 is at
most `max_caracteres = 4500` characters long, yet the early return of
`traducir_texto_inteligente` issues zero translation calls on it. -/
theorem llamadas_texto_blanco_cero :
    ("   ".data).length ≤ 4500 ∧
    llamadas ("   ".data) 4500 = [] ∧
    (llamadas ("   ".data) 4500).length ≠ 1 := by
  refine ⟨by decide, by decide, by decide⟩

/-- C7 (amended): a text that is non-empty after stripping and of length
at most `max_caracteres` is passed to the translation service in exactly
one call, with the full text as the argument; a text that is empty or
whitespace-only short-circuits with zero calls. -/
theorem llamadas_exactamente_una (texto : Texto) (maxC : ℕ) :
    ((strip texto).isEmpty = false → texto.length ≤ maxC →
      llamadas texto maxC = [texto]) ∧
    ((strip texto).isEmpty = true → llamadas texto maxC = []) := by
  constructor
  · intro h1 h2
    rw [llamadas, if_neg (by rw [h1]; simp), if_pos h2]
  · intro h1
    rw [llamadas, if_pos h1]

/-- Witness for the amended C7: one call on `Hello`, zero calls on a
whitespace-only text. -/
theorem llamadas_exactamente_una_witness :
    llamadas ("Hello".data) 4500 = [("Hello".data)] ∧
    llamadas ("   ".data) 4500 = [] :=
  ⟨(llamadas_exactamente_una ("Hello".data) 4500).1 (by decide) (by decide),
   (llamadas_exactamente_una ("   ".data) 4500).2 (by decide)⟩

theorem piezasAuxE_ok {ε : Type} (trans : Texto → Except ε Texto)
    (oraciones : List Texto) (maxC : ℕ) :
    ∀ buffer : Texto,
      piezasAuxE trans oraciones buffer maxC =
        Except.ok (piezasAux (fun s => (trans s).toOption) oraciones buffer maxC) := by
  induction oraciones with
  | nil =>
    intro buffer
    rw [piezasAuxE, piezasAux]
    by_cases h : buffer.isEmpty
    · rw [if_pos h, if_pos h]
    · rw [if_neg h, if_neg h]
      unfold piezaE pieza
      cases htr : trans (strip buffer) <;> simp [htr, Except.toOption]
  | cons o rest ih =>
    intro buffer
    rw [piezasAuxE, piezasAux]
    by_cases h1 : buffer.length + o.length < maxC
    · rw [if_pos h1, if_pos h1]
      exact ih _
    · rw [if_neg h1, if_neg h1]
      by_cases h2 : buffer.isEmpty
      · rw [if_pos h2, if_pos h2]
        exact ih _
      · rw [if_neg h2, if_neg h2, ih]
        unfold piezaE pieza
        cases htr : trans (strip buffer) <;> simp [htr, Except.toOption]

/-- C10: `traducir_texto_inteligente` never lets a service exception
escape. In the exception model, where the service may raise on any
subset of calls, the function always returns normally (`Except.ok`),
and its value is the one computed by the `Option` model in which a
raised call is a `none` answer. -/
theorem traducirE_total (ε : Type) (trans : Texto → Except ε Texto)
    (texto : Texto) (maxC : ℕ) :
    traducirE trans texto maxC =
      Except.ok
        (traducir_texto_inteligente (fun s => (trans s).toOption) texto maxC) := by
  rw [traducirE, traducir_texto_inteligente]
  by_cases h1 : (strip texto).isEmpty
  · rw [if_pos h1, if_pos h1]
  · rw [if_neg h1, if_neg h1]
    by_cases h2 : texto.length ≤ maxC
    · rw [if_pos h2, if_pos h2]
      cases htr : trans texto <;> simp [htr, Except.toOption]
    · rw [if_neg h2, if_neg h2, piezasAuxE_ok]

theorem ne_nil_of_isEmpty_false {α : Type} (l : List α)
    (h : l.isEmpty = false) : l ≠ [] := by
  cases l with
  | nil => simp at h
  | cons x xs => simp

theorem flush_eq_parrafoDeGrupo (buffer : List Bloque) (ut : Option Tipo)
    (h : ut = buffer.getLast?.map Bloque.tipo) :
    flushParrafo buffer ut = parrafoDeGrupo buffer := by
  rw [flushParrafo, parrafoDeGrupo, h]

theorem parrafoDeGrupo_singleton (b : Bloque) :
    parrafoDeGrupo [b] =
      { texto := b.text, tipo := b.tipo, font_size := b.font_size } := by
  simp [parrafoDeGrupo, List.intercalate]

theorem agruparGruposAux_flatten (bloques : List Bloque) :
    ∀ (buffer : List Bloque) (uy : Option ℚ),
      (agruparGruposAux bloques buffer uy).flatten = buffer ++ bloques := by
  induction bloques with
  | nil =>
    intro buffer uy
    rw [agruparGruposAux]
    by_cases h : buffer.isEmpty = true
    · rw [if_pos h]
      simp [List.isEmpty_iff.mp h]
    · rw [if_neg h]
      simp
  | cons b rest ih =>
    intro buffer uy
    cases uy with
    | none =>
      rw [agruparGruposAux]
      by_cases henc : esEncabezado b.tipo = true
      · rw [if_pos henc]
        by_cases h : buffer.isEmpty = true
        · rw [if_pos h]
          simp [List.isEmpty_iff.mp h, ih]
        · rw [if_neg h]
          simp [ih]
      · rw [if_neg henc, ih]
        simp
    | some uyv =>
      rw [agruparGruposAux]
      by_cases henc : esEncabezado b.tipo = true
      · rw [if_pos henc]
        by_cases h : buffer.isEmpty = true
        · rw [if_pos h]
          simp [List.isEmpty_iff.mp h, ih]
        · rw [if_neg h]
          simp [ih]
      · rw [if_neg henc]
        by_cases hgap : ratAbs (b.y - uyv) > 15
        · rw [if_pos hgap]
          by_cases h : buffer.isEmpty = true
          · rw [if_pos h]
            simp [List.isEmpty_iff.mp h, ih]
          · rw [if_neg h]
            simp [ih]
        · rw [if_neg hgap, ih]
          simp

theorem agruparGruposAux_ne_nil (bloques : List Bloque) :
    ∀ (buffer : List Bloque) (uy : Option ℚ),
      ∀ g ∈ agruparGruposAux bloques buffer uy, g ≠ [] := by
  induction bloques with
  | nil =>
    intro buffer uy g hg
    rw [agruparGruposAux] at hg
    by_cases h : buffer.isEmpty = true
    · rw [if_pos h] at hg
      simp at hg
    · rw [if_neg h] at hg
      rw [List.mem_singleton] at hg
      subst hg
      exact ne_nil_of_isEmpty_false _ (by simpa using h)
  | cons b rest ih =>
    intro buffer uy g hg
    cases uy with
    | none =>
      rw [agruparGruposAux] at hg
      by_cases henc : esEncabezado b.tipo = true
      · rw [if_pos henc] at hg
        rcases List.mem_append.mp hg with hg | hg
        · by_cases h : buffer.isEmpty = true
          · rw [if_pos h] at hg
            simp at hg
          · rw [if_neg h] at hg
            rw [List.mem_singleton] at hg
            subst hg
            exact ne_nil_of_isEmpty_false _ (by simpa using h)
        · rcases List.mem_cons.mp hg with rfl | hg
          · simp
          · exact ih _ _ g hg
      · rw [if_neg henc] at hg
        exact ih _ _ g hg
    | some uyv =>
      rw [agruparGruposAux] at hg
      by_cases henc : esEncabezado b.tipo = true
      · rw [if_pos henc] at hg
        rcases List.mem_append.mp hg with hg | hg
        · by_cases h : buffer.isEmpty = true
          · rw [if_pos h] at hg
            simp at hg
          · rw [if_neg h] at hg
            rw [List.mem_singleton] at hg
            subst hg
            exact ne_nil_of_isEmpty_false _ (by simpa using h)
        · rcases List.mem_cons.mp hg with rfl | hg
          · simp
          · exact ih _ _ g hg
      · rw [if_neg henc] at hg
        by_cases hgap : ratAbs (b.y - uyv) > 15
        · rw [if_pos hgap] at hg
          rcases List.mem_append.mp hg with hg | hg
          · by_cases h : buffer.isEmpty = true
            · rw [if_pos h] at hg
              simp at hg
            · rw [if_neg h] at hg
              rw [List.mem_singleton] at hg
              subst hg
              exact ne_nil_of_isEmpty_false _ (by simpa using h)
          · exact ih _ _ g hg
        · rw [if_neg hgap] at hg
          exact ih _ _ g hg

theorem agruparGruposAux_encabezados (bloques : List Bloque) :
    ∀ (buffer : List Bloque) (uy : Option ℚ),
      (∀ x ∈ buffer, esEncabezado x.tipo = false) →
      ∀ g ∈ agruparGruposAux bloques buffer uy,
        ∀ b ∈ g, esEncabezado b.tipo = true → g = [b] := by
  induction bloques with
  | nil =>
    intro buffer uy hbuf g hg b hb henc
    rw [agruparGruposAux] at hg
    by_cases h : buffer.isEmpty = true
    · rw [if_pos h] at hg
      simp at hg
    · rw [if_neg h] at hg
      rw [List.mem_singleton] at hg
      subst hg
      rw [hbuf b hb] at henc
      simp at henc
  | cons b0 rest ih =>
    intro buffer uy hbuf g hg b hb henc
    have hstep : ∀ uy2 : Option ℚ,
        g ∈ agruparGruposAux rest [b0] uy2 →
        esEncabezado b0.tipo = false → g = [b] := by
      intro uy2 hg2 henc0
      refine ih [b0] uy2 ?_ g hg2 b hb henc
      intro x hx
      rw [List.mem_singleton] at hx
      subst hx
      exact henc0
    have happ : ∀ x ∈ buffer ++ [b0], esEncabezado b0.tipo = false →
        esEncabezado x.tipo = false := by
      intro x hx henc0
      rcases List.mem_append.mp hx with hx | hx
      · exact hbuf x hx
      · rw [List.mem_singleton] at hx
        subst hx
        exact henc0
    have hflush : g ∈ (if buffer.isEmpty = true then []
        else [buffer]) → g = [b] := by
      intro hg2
      by_cases h : buffer.isEmpty = true
      · rw [if_pos h] at hg2
        simp at hg2
      · rw [if_neg h] at hg2
        rw [List.mem_singleton] at hg2
        subst hg2
        rw [hbuf b hb] at henc
        simp at henc
    cases uy with
    | none =>
      rw [agruparGruposAux] at hg
      by_cases henc0 : esEncabezado b0.tipo = true
      · rw [if_pos henc0] at hg
        rcases List.mem_append.mp hg with hg | hg
        · exact hflush hg
        · rcases List.mem_cons.mp hg with rfl | hg
          · rw [List.mem_singleton] at hb
            subst hb
            rfl
          · exact ih [] _ (by intro x hx; simp at hx) g hg b hb henc
      · rw [if_neg henc0] at hg
        exact ih _ _ (fun x hx => happ x hx (by simpa using henc0)) g hg b hb henc
    | some uyv =>
      rw [agruparGruposAux] at hg
      by_cases henc0 : esEncabezado b0.tipo = true
      · rw [if_pos henc0] at hg
        rcases List.mem_append.mp hg with hg | hg
        · exact hflush hg
        · rcases List.mem_cons.mp hg with rfl | hg
          · rw [List.mem_singleton] at hb
            subst hb
            rfl
          · exact ih [] _ (by intro x hx; simp at hx) g hg b hb henc
      · rw [if_neg henc0] at hg
        by_cases hgap : ratAbs (b0.y - uyv) > 15
        · rw [if_pos hgap] at hg
          rcases List.mem_append.mp hg with hg | hg
          · exact hflush hg
          · exact hstep _ hg (by simpa using henc0)
        · rw [if_neg hgap] at hg
          exact ih _ _ (fun x hx => happ x hx (by simpa using henc0)) g hg b hb henc

theorem agruparAux_eq_map (bloques : List Bloque) :
    ∀ (buffer : List Bloque) (uy : Option ℚ) (ut : Option Tipo),
      (buffer ≠ [] → ut = buffer.getLast?.map Bloque.tipo) →
      agruparAux bloques buffer uy ut =
        (agruparGruposAux bloques buffer uy).map parrafoDeGrupo := by
  induction bloques with
  | nil =>
    intro buffer uy ut hinv
    rw [agruparAux, agruparGruposAux]
    by_cases h : buffer.isEmpty = true
    · rw [if_pos h, if_pos h]
      rfl
    · rw [if_neg h, if_neg h, List.map_singleton]
      rw [flush_eq_parrafoDeGrupo buffer ut
        (hinv (ne_nil_of_isEmpty_false _ (by simpa using h)))]
  | cons b rest ih =>
    intro buffer uy ut hinv
    have hflush : buffer.isEmpty = false →
        flushParrafo buffer ut = parrafoDeGrupo buffer := fun h =>
      flush_eq_parrafoDeGrupo buffer ut
        (hinv (ne_nil_of_isEmpty_false _ h))
    have hsnoc : (buffer ++ [b]) ≠ [] →
        some b.tipo = (buffer ++ [b]).getLast?.map Bloque.tipo := by
      intro _
      rw [List.getLast?_concat]
      rfl
    have hsingle : ([b] : List Bloque) ≠ [] →
        some b.tipo = ([b] : List Bloque).getLast?.map Bloque.tipo := by
      intro _
      rfl
    cases uy with
    | none =>
      rw [agruparAux, agruparGruposAux]
      by_cases henc : esEncabezado b.tipo = true
      · rw [if_pos henc, if_pos henc, List.map_append, List.map_cons]
        congr 1
        · by_cases h : buffer.isEmpty = true
          · rw [if_pos h, if_pos h]
            rfl
          · rw [if_neg h, if_neg h, List.map_singleton,
              hflush (by simpa using h)]
        · rw [parrafoDeGrupo_singleton,
            ih [] (some b.y) (some b.tipo) (by intro hx; simp at hx)]
      · rw [if_neg henc, if_neg henc]
        exact ih _ _ _ hsnoc
    | some uyv =>
      rw [agruparAux, agruparGruposAux]
      by_cases henc : esEncabezado b.tipo = true
      · rw [if_pos henc, if_pos henc, List.map_append, List.map_cons]
        congr 1
        · by_cases h : buffer.isEmpty = true
          · rw [if_pos h, if_pos h]
            rfl
          · rw [if_neg h, if_neg h, List.map_singleton,
              hflush (by simpa using h)]
        · rw [parrafoDeGrupo_singleton,
            ih [] (some b.y) (some b.tipo) (by intro hx; simp at hx)]
      · rw [if_neg henc, if_neg henc]
        by_cases hgap : ratAbs (b.y - uyv) > 15
        · rw [if_pos hgap, if_pos hgap, List.map_append]
          congr 1
          · by_cases h : buffer.isEmpty = true
            · rw [if_pos h, if_pos h]
              rfl
            · rw [if_neg h, if_neg h, List.map_singleton,
                hflush (by simpa using h)]
          · exact ih _ _ _ hsingle
        · rw [if_neg hgap, if_neg hgap]
          exact ih _ _ _ hsnoc

/-- C3: every unit `agrupar_bloques_en_parrafos` emits comes from a
consecutive, non-empty group of input spans, and equals
`parrafoDeGrupo` of that group: its text is the space-joined
concatenation of the group's texts in input order, its kind is the kind
of the last contributing span, and its font size is the font size of the
first contributing span. -/
theorem agrupar_unidades_invariante (bloques : List Bloque) :
    ∃ grupos : List (List Bloque),
      grupos.flatten = bloques ∧
      (∀ g ∈ grupos, g ≠ []) ∧
      agrupar_bloques_en_parrafos bloques = grupos.map parrafoDeGrupo := by
  by_cases h : bloques.isEmpty = true
  · refine ⟨[], by simp [List.isEmpty_iff.mp h], by simp, ?_⟩
    rw [agrupar_bloques_en_parrafos, if_pos h]
    simp
  · refine ⟨agruparGruposAux bloques [] none, ?_, ?_, ?_⟩
    · rw [agruparGruposAux_flatten]
      simp
    · exact agruparGruposAux_ne_nil _ _ _
    · rw [agrupar_bloques_en_parrafos, if_neg h]
      exact agruparAux_eq_map _ [] none none (by intro hx; simp at hx)

/-- C4: the assembler never merges a `titulo` or `subtitulo` span into a
larger unit: in the grouping that `agrupar_bloques_en_parrafos` realises,
any group containing a heading span is the singleton of that span, so
every heading is emitted as its own standalone unit (and a pending
non-empty buffer is flushed as a separate unit before it, since groups
partition the input in order). -/
theorem agrupar_encabezados_aislados (bloques : List Bloque) :
    ∃ grupos : List (List Bloque),
      grupos.flatten = bloques ∧
      agrupar_bloques_en_parrafos bloques = grupos.map parrafoDeGrupo ∧
      ∀ g ∈ grupos, ∀ b ∈ g, esEncabezado b.tipo = true → g = [b] := by
  by_cases h : bloques.isEmpty = true
  · refine ⟨[], by simp [List.isEmpty_iff.mp h], ?_, by simp⟩
    rw [agrupar_bloques_en_parrafos, if_pos h]
    simp
  · refine ⟨agruparGruposAux bloques [] none, ?_, ?_, ?_⟩
    · rw [agruparGruposAux_flatten]
      simp
    · rw [agrupar_bloques_en_parrafos, if_neg h]
      exact agruparAux_eq_map _ [] none none (by intro hx; simp at hx)
    · exact agruparGruposAux_encabezados _ [] none (by intro x hx; simp at hx)

/-- C5: with a non-empty buffer whose most recently buffered span is
`lb`, a non-heading incoming span `b` flushes the buffer and starts a new
one exactly when `|b.y - lb.y| > 15`; a gap of 15 or less appends `b` to
the same buffer. -/
theorem agrupar_umbral_salto (b lb : Bloque) (rest buffer : List Bloque)
    (ut : Option Tipo) (hlast : buffer.getLast? = some lb)
    (henc : esEncabezado b.tipo = false) :
    agruparAux (b :: rest) buffer (some lb.y) ut =
      if ratAbs (b.y - lb.y) > 15 then
        flushParrafo buffer ut :: agruparAux rest [b] (some b.y) (some b.tipo)
      else
        agruparAux rest (buffer ++ [b]) (some b.y) (some b.tipo) := by
  have hne : buffer.isEmpty = false := by
    cases buffer with
    | nil => simp at hlast
    | cons x xs => rfl
  rw [agruparAux, if_neg (by rw [henc]; simp)]
  by_cases hgap : ratAbs (b.y - lb.y) > 15
  · rw [if_pos hgap, if_pos hgap, if_neg (by rw [hne]; simp)]
    simp
  · rw [if_neg hgap, if_neg hgap]

/-- A concrete body-text span (font size 10, not bold): classified
`parrafo`, hence not a heading. -/
def bloqueCuerpo (s : Texto) (yv : ℚ) : Bloque :=
  mkBloque s 10 false 0 yv 0

/-- Witness for C5 at the boundary: a vertical gap of 16 flushes
(two units), a gap of 15 keeps merging (one joined unit). -/
theorem agrupar_umbral_salto_witness :
    agruparAux [bloqueCuerpo ("tras el salto".data) 26]
        [bloqueCuerpo ("antes del salto".data) 10]
        (some (bloqueCuerpo ("antes del salto".data) 10).y)
        (some Tipo.parrafo) =
      [{ texto := "antes del salto".data, tipo := Tipo.parrafo,
         font_size := 10 },
       { texto := "tras el salto".data, tipo := Tipo.parrafo,
         font_size := 10 }] ∧
    agruparAux [bloqueCuerpo ("tras salto chico".data) 25]
        [bloqueCuerpo ("antes del salto".data) 10]
        (some (bloqueCuerpo ("antes del salto".data) 10).y)
        (some Tipo.parrafo) =
      [{ texto := "antes del salto".data ++ (' ' :: "tras salto chico".data),
         tipo := Tipo.parrafo, font_size := 10 }] := by
  constructor
  · rw [agrupar_umbral_salto (bloqueCuerpo ("tras el salto".data) 26)
      (bloqueCuerpo ("antes del salto".data) 10) []
      [bloqueCuerpo ("antes del salto".data) 10] (some Tipo.parrafo)
      rfl (by decide)]
    with_unfolding_all decide
  · rw [agrupar_umbral_salto (bloqueCuerpo ("tras salto chico".data) 25)
      (bloqueCuerpo ("antes del salto".data) 10) []
      [bloqueCuerpo ("antes del salto".data) 10] (some Tipo.parrafo)
      rfl (by decide)]
    with_unfolding_all decide

/-- C2: `clasificar_tipo` applies its rules in precedence order with the
first match winning — `titulo` iff (font size over 12 or bold) and length
under 100; otherwise `lista` iff one of the two list-marker regexes
matches; otherwise `subtitulo` iff length under 80 and font size over 10;
otherwise `parrafo` — and in particular a bold span of length under 100
beginning with a list marker is classified `titulo`, never `lista`. The
length here is that of the block's stored text, which the `TextBlock`
constructor has already trimmed. -/
theorem clasificar_tipo_precedencia (text : Texto) (font_size : ℚ)
    (is_bold : Bool) :
    (clasificar_tipo text font_size is_bold = Tipo.titulo ↔
      (((12 : ℚ) < font_size ∨ is_bold = true) ∧ text.length < 100)) ∧
    (clasificar_tipo text font_size is_bold = Tipo.lista ↔
      (¬ (((12 : ℚ) < font_size ∨ is_bold = true) ∧ text.length < 100) ∧
        (matchLista text = true ∨ matchEnum text = true))) ∧
    (clasificar_tipo text font_size is_bold = Tipo.subtitulo ↔
      (¬ (((12 : ℚ) < font_size ∨ is_bold = true) ∧ text.length < 100) ∧
        ¬ (matchLista text = true ∨ matchEnum text = true) ∧
        text.length < 80 ∧ (10 : ℚ) < font_size)) ∧
    (clasificar_tipo text font_size is_bold = Tipo.parrafo ↔
      (¬ (((12 : ℚ) < font_size ∨ is_bold = true) ∧ text.length < 100) ∧
        ¬ (matchLista text = true ∨ matchEnum text = true) ∧
        ¬ (text.length < 80 ∧ (10 : ℚ) < font_size))) ∧
    (is_bold = true → text.length < 100 →
      (matchLista text = true ∨ matchEnum text = true) →
      clasificar_tipo text font_size is_bold = Tipo.titulo) := by
  by_cases h1 : ((12 : ℚ) < font_size ∨ is_bold = true) ∧ text.length < 100 <;>
    by_cases h2 : matchLista text = true ∨ matchEnum text = true <;>
    by_cases h3 : text.length < 80 ∧ (10 : ℚ) < font_size <;>
    simp [clasificar_tipo, h1, h2, h3] <;>
    first
    | tauto
    | omega
    | (intro hb
       by_contra hlen
       exact h1 ⟨Or.inr hb, by omega⟩)

/-- Witness for C2: the bold list item `1. Hola` (font size 10) matches
the list-marker regex yet is classified `titulo`. -/
theorem clasificar_tipo_precedencia_witness :
    matchLista ("1. Hola".data) = true ∧
    clasificar_tipo ("1. Hola".data) 10 true = Tipo.titulo :=
  ⟨by decide,
   (clasificar_tipo_precedencia ("1. Hola".data) 10 true).2.2.2.2 rfl
     (by decide) (Or.inl (by decide))⟩

/-- C8 is false as stated: a page with zero spans does yield zero
`Parrafo` units, but when it is not the last page the renderer still
appends a `PageBreak` on its account — the story for an empty page
followed by a one-paragraph page starts with a page break that the story
without the empty page does not contain. -/
theorem pagina_vacia_salto_contraejemplo :
    agrupar_bloques_en_parrafos [] = [] ∧
    elementosPagina (fun _ _ => false) 2 0 [] = [StoryElem.pageBreak] ∧
    crearStory (fun _ _ => false)
        [[], [{ texto := "Hola".data, tipo := Tipo.parrafo,
                font_size := 10 }]] =
      [StoryElem.pageBreak,
       StoryElem.paragraph ("Hola".data) Estilo.parrafoNormal] ∧
    crearStory (fun _ _ => false)
        [[{ texto := "Hola".data, tipo := Tipo.parrafo, font_size := 10 }]] =
      [StoryElem.paragraph ("Hola".data) Estilo.parrafoNormal] := by
  refine ⟨by decide, by decide, ?_, ?_⟩
  · simp [crearStory, List.enum, List.enumFrom, elementosPagina,
      elementosUnidad, marcadoYEstilo, limpiarTexto, pyReplace, esPrefijo,
      strip, isSpaceChar]
  · simp [crearStory, List.enum, List.enumFrom, elementosPagina,
      elementosUnidad, marcadoYEstilo, limpiarTexto, pyReplace, esPrefijo,
      strip, isSpaceChar]

/-- C8 (amended): a page with zero spans yields zero `Parrafo` units and
contributes no paragraph and no spacer to the story; a page break is
still appended after it exactly when it is not the last page. -/
theorem pagina_vacia_sin_contenido (falla : Texto → Estilo → Bool)
    (n i : ℕ) :
    agrupar_bloques_en_parrafos [] = [] ∧
    elementosPagina falla n i [] =
      (if i < n - 1 then [StoryElem.pageBreak] else []) := by
  refine ⟨rfl, ?_⟩
  rw [elementosPagina]
  simp

theorem esPrefijo_refl (l : Texto) : esPrefijo l l = true := by
  induction l with
  | nil => rfl
  | cons c cs ih => simp [esPrefijo, ih]

theorem pyReplace_unica (pat rep : Texto) (hpat : pat ≠ []) :
    ∀ stem : Texto,
      (∀ i < stem.length, esPrefijo pat (stem.drop i ++ pat) = false) →
      pyReplace (stem ++ pat) pat rep = stem ++ rep := by
  intro stem
  induction stem with
  | nil =>
    intro _
    simp only [List.nil_append]
    cases pat with
    | nil => exact absurd rfl hpat
    | cons p ps =>
      rw [pyReplace, dif_pos (by simp [esPrefijo_refl])]
      rw [show ((p :: ps).drop (p :: ps).length) = ([] : Texto) from
        List.drop_length _]
      rw [pyReplace]
      simp
  | cons c st ih =>
    intro hocc
    have h0 : esPrefijo pat (c :: (st ++ pat)) = false := by
      have := hocc 0 (by simp)
      simpa using this
    rw [List.cons_append, pyReplace, dif_neg (by simp [h0])]
    rw [ih (fun i hi => by
      have := hocc (i + 1) (by simp; omega)
      simpa using this)]
    simp

/-- C9 is false as stated: Python's `str.replace` replaces every
occurrence of `.pdf`, not only the trailing suffix, so the upload name
`doc.pdf.pdf` is renamed with both occurrences expanded instead of only
the final one, altering the rest of the name. -/
theorem nombre_salida_doble_pdf :
    nombre_archivo_salida ("doc.pdf.pdf".data) =
      ("doc_TRADUCIDO_PROFESIONAL.pdf_TRADUCIDO_PROFESIONAL.pdf".data) ∧
    nombre_archivo_salida ("doc.pdf.pdf".data) ≠
      ("doc.pdf_TRADUCIDO_PROFESIONAL.pdf".data) := by
  have heval : nombre_archivo_salida ("doc.pdf.pdf".data) =
      ("doc_TRADUCIDO_PROFESIONAL.pdf_TRADUCIDO_PROFESIONAL.pdf".data) := by
    simp [nombre_archivo_salida, sufijoTraducido, pyReplace, esPrefijo]
  exact ⟨heval, by rw [heval]; decide⟩

/-- C9 (amended): when `.pdf` occurs in the uploaded name only as its
trailing suffix, `nombre_archivo_salida` replaces exactly that suffix
with `_TRADUCIDO_PROFESIONAL.pdf` and leaves the rest of the name
unchanged; a name with further occurrences of `.pdf` has every
occurrence replaced (see the counterexample). -/
theorem nombre_salida_sufijo (stem : Texto)
    (hocc : ∀ i < stem.length,
      esPrefijo (".pdf".data) (stem.drop i ++ ".pdf".data) = false) :
    nombre_archivo_salida (stem ++ ".pdf".data) = stem ++ sufijoTraducido :=
  pyReplace_unica _ _ (by decide) stem hocc

/-- Witness for the amended C9 on the name `document.pdf`. -/
theorem nombre_salida_sufijo_witness :
    nombre_archivo_salida ("document.pdf".data) =
      ("document_TRADUCIDO_PROFESIONAL.pdf".data) := by
  have h := nombre_salida_sufijo ("document".data) (by decide)
  have e1 : ("document".data ++ ".pdf".data) = ("document.pdf".data) := by
    decide
  rw [e1] at h
  rw [h]
  decide
